import Mathlib

/-!
Shallow embedding of the Crypto-Realtime-QuestDB streaming ingestion pipeline
(`crypto_ingestion.py`, `websocket_client.py`, `database.py`, `main.py`,
`config.py`, `models.py`).

Modelling conventions: numeric feed values (Python floats parsed from the
feed's decimal strings) are modelled as exact rationals; instants as seconds
(`Nat` wall clocks, `Int` zone offsets); database tables as in-order lists of
rows (QuestDB appends on INSERT, and the tables declared here have no primary
key or dedup clause, so INSERT-SELECT always appends); fallible store and
transport operations take their outcome as an explicit parameter and stateful
code is explicit state passing.
-/

namespace Crypto

/-- Fixed reconnect delay from config.py: `WEBSOCKET_RECONNECT_DELAY = 5`. -/
def WEBSOCKET_RECONNECT_DELAY : Nat := 5

/-- Zone suffix of an ISO-8601 timestamp text: no marker, a trailing Z, or an
explicit numeric offset (in seconds). -/
inductive Zone where
  | noMarker : Zone
  | zulu : Zone
  | offset (seconds : Int) : Zone
deriving DecidableEq

/-- Abstract ISO-8601 timestamp text: its wall-clock fields encoded as seconds
plus its zone suffix. -/
structure TimeStr where
  wall : Nat
  zone : Zone
deriving DecidableEq

/-- Python `datetime`: wall-clock fields plus an optional tzinfo offset in
seconds.  `tz = none` is a naive datetime. -/
structure PyDateTime where
  wall : Nat
  tz : Option Int
deriving DecidableEq

/-- Result of `time_str.replace('Z', '+00:00')`: the trailing Z marker becomes
an explicit +00:00 offset; other texts are unchanged. -/
def replaceZ : TimeStr → TimeStr
  | ⟨w, Zone.zulu⟩ => ⟨w, Zone.offset 0⟩
  | s => s

/-- Result of `datetime.fromisoformat` on the timestamp text: a text with no
zone marker parses to a naive datetime, a text with an explicit offset to an
aware one carrying that offset.  (The zulu row is what a Z-accepting Python
would return; the source never reaches it because it rewrites Z first.) -/
def fromisoformat : TimeStr → PyDateTime
  | ⟨w, Zone.noMarker⟩ => ⟨w, none⟩
  | ⟨w, Zone.zulu⟩ => ⟨w, some 0⟩
  | ⟨w, Zone.offset o⟩ => ⟨w, some o⟩

/-- Embedding of `parse_coinbase_time` (websocket_client.py lines 34-40 and
the identical copy in crypto_ingestion.py lines 65-75): rewrite a trailing Z
to +00:00, parse, then `dt.replace(tzinfo=None) if dt.tzinfo else dt` — the
tzinfo is dropped while the wall-clock fields are kept unchanged. -/
def parse_coinbase_time (s : TimeStr) : PyDateTime :=
  let dt := if s.zone = Zone.zulu then fromisoformat (replaceZ s) else fromisoformat s
  if dt.tz.isSome then ⟨dt.wall, none⟩ else dt

/-- Wall clock of the instant denoted by a datetime, expressed in UTC: an
aware datetime's wall clock minus its offset. -/
def utcWall (d : PyDateTime) : Int :=
  match d.tz with
  | some o => (d.wall : Int) - o
  | none => (d.wall : Int)

/-- Value of a JSON field that the decoders convert with `float`/`int`: text
that converts (held as the exact rational it denotes) or text that raises on
conversion. -/
inductive FVal where
  | num (q : ℚ) : FVal
  | text : FVal
deriving DecidableEq

/-- Inbound frame: the JSON object keys the two decoders read, each possibly
absent.  Keys the source never accesses are not modelled. -/
structure RawFrame where
  type_ : Option String
  product_id : Option String
  price : Option FVal
  best_bid : Option FVal
  best_ask : Option FVal
  volume_24h : Option FVal
  size : Option FVal
  side : Option String
  trade_id : Option FVal
  time : Option TimeStr
deriving DecidableEq

/-- Dictionary access `data[k]`: raises KeyError when the key is absent. -/
def getItem {α : Type} (v : Option α) : Except String α :=
  match v with
  | some x => Except.ok x
  | none => Except.error "KeyError"

/-- Conversion `float(v)`: raises ValueError on non-numeric text. -/
def pyFloat (v : FVal) : Except String ℚ :=
  match v with
  | FVal.num q => Except.ok q
  | FVal.text => Except.error "ValueError"

/-- Conversion `int(v)`: raises ValueError unless the text denotes an
integer. -/
def pyInt (v : FVal) : Except String Int :=
  match v with
  | FVal.num q => if q.den = 1 then Except.ok q.num else Except.error "ValueError"
  | FVal.text => Except.error "ValueError"

/-- Ticker dataclass (models.py lines 19-27; same shape in
crypto_ingestion.py lines 47-54). -/
structure Ticker where
  symbol : String
  best_bid : ℚ
  best_ask : ℚ
  last_price : ℚ
  volume_24h : ℚ
  time : PyDateTime
deriving DecidableEq

/-- Trade dataclass (models.py lines 9-17; same shape in crypto_ingestion.py
lines 38-45). -/
structure Trade where
  symbol : String
  price : ℚ
  size : ℚ
  side : String
  time : PyDateTime
  trade_id : Int
deriving DecidableEq

/-- Decoded event handed to persistence and broadcast. -/
inductive Event where
  | ticker (t : Ticker) : Event
  | trade (t : Trade) : Event
deriving DecidableEq

/-- Field reads constructing a `Ticker` from a ticker-kind frame
(websocket_client.py lines 78-85; crypto_ingestion.py lines 255-262 reads the
same fields in the same order). -/
def decodeTicker (d : RawFrame) : Except String Ticker := do
  let pid ← getItem d.product_id
  let bb ← getItem d.best_bid >>= pyFloat
  let ba ← getItem d.best_ask >>= pyFloat
  let lp ← getItem d.price >>= pyFloat
  let v ← getItem d.volume_24h >>= pyFloat
  let t ← getItem d.time
  pure ⟨pid, bb, ba, lp, v, parse_coinbase_time t⟩

/-- Field reads constructing a `Trade` from a match-kind frame
(websocket_client.py lines 104-111; crypto_ingestion.py lines 278-285). -/
def decodeTrade (d : RawFrame) : Except String Trade := do
  let pid ← getItem d.product_id
  let p ← getItem d.price >>= pyFloat
  let sz ← getItem d.size >>= pyFloat
  let sd ← getItem d.side
  let t ← getItem d.time
  let tid ← getItem d.trade_id >>= pyInt
  pure ⟨pid, p, sz, sd, parse_coinbase_time t, tid⟩

/-- Body of `CoinbaseWebSocketClient._process_message` before its enclosing
try/except: `data.get('type')` is None-safe and unrecognized discriminants
fall through emitting nothing. -/
def wcDecode (d : RawFrame) : Except String (Option Event) :=
  if d.type_ = some "ticker" then (decodeTicker d).map (fun t => some (Event.ticker t))
  else if d.type_ = some "match" then (decodeTrade d).map (fun t => some (Event.trade t))
  else Except.ok none

/-- Embedding of `_process_message` (websocket_client.py lines 72-129): the
method-wide try/except turns any decode failure into a dropped frame, so the
method is total and emits at most one event. -/
def process_message (d : RawFrame) : Option Event :=
  match wcDecode d with
  | Except.ok e => e
  | Except.error _ => none

/-- Receive loop of `connect_and_subscribe` over one connection's frames
(websocket_client.py lines 64-65): every frame goes through
`_process_message`; a dropped frame emits nothing and the loop reads the next
frame of the same connection. -/
def wcProcessFrames (frames : List RawFrame) : List Event :=
  frames.filterMap process_message

/-- Per-message branch of `coinbase_websocket_feed` (crypto_ingestion.py
lines 252-297): `data['type']` itself raises when the key is absent, and no
per-frame exception handler exists inside the async-for. -/
def ciDecode (d : RawFrame) : Except String (Option Event) := do
  let t ← getItem d.type_
  if t = "ticker" then
    (decodeTicker d).map (fun tk => some (Event.ticker tk))
  else if t = "match" then
    (decodeTrade d).map (fun tr => some (Event.trade tr))
  else
    pure none

/-- Receive loop of `coinbase_websocket_feed` over one connection's frames:
a raised decode error escapes the async-for, so the connection is abandoned
(outer except → sleep 5 → reconnect) and the remaining frames of that
connection are never read.  Returns the emitted events and the error that
aborted the connection, if any. -/
def ciProcessFrames : List RawFrame → List Event × Option String
  | [] => ([], none)
  | f :: fs =>
    match ciDecode f with
    | Except.error e => ([], some e)
    | Except.ok oe =>
      let r := ciProcessFrames fs
      (oe.toList ++ r.1, r.2)

/-- JSON value inside a broadcast payload's data object.  The `dt` row stands
for the `isoformat` text of a naive datetime with the given wall clock. -/
inductive PVal where
  | str (s : String) : PVal
  | num (q : ℚ) : PVal
  | dt (wall : Nat) : PVal
deriving DecidableEq

/-- Broadcast payload: the `type` discriminant plus the `data` object as an
ordered key-value list. -/
structure Payload where
  type_ : String
  data : List (String × PVal)
deriving DecidableEq

/-- Keys of a payload's data object. -/
def payloadKeys (p : Payload) : List String := p.data.map Prod.fst

/-- Ticker payload built in websocket_client.py lines 91-101: carries a
spread key computed as best_ask - best_bid of the same update. -/
def wc_ticker_payload (t : Ticker) : Payload :=
  ⟨"ticker",
    [("symbol", PVal.str t.symbol), ("price", PVal.num t.last_price),
     ("bid", PVal.num t.best_bid), ("ask", PVal.num t.best_ask),
     ("volume", PVal.num t.volume_24h),
     ("spread", PVal.num (t.best_ask - t.best_bid))]⟩

/-- Trade payload built in websocket_client.py lines 117-126: carries a time
key holding `trade.time.isoformat()`. -/
def wc_trade_payload (t : Trade) : Payload :=
  ⟨"trade",
    [("symbol", PVal.str t.symbol), ("price", PVal.num t.price),
     ("size", PVal.num t.size), ("side", PVal.str t.side),
     ("time", PVal.dt t.time.wall)]⟩

/-- Ticker payload built in crypto_ingestion.py lines 266-275: no spread
key. -/
def ci_ticker_payload (t : Ticker) : Payload :=
  ⟨"ticker",
    [("symbol", PVal.str t.symbol), ("price", PVal.num t.last_price),
     ("bid", PVal.num t.best_bid), ("ask", PVal.num t.best_ask),
     ("volume", PVal.num t.volume_24h)]⟩

/-- Trade payload built in crypto_ingestion.py lines 289-297: no time key. -/
def ci_trade_payload (t : Trade) : Payload :=
  ⟨"trade",
    [("symbol", PVal.str t.symbol), ("price", PVal.num t.price),
     ("size", PVal.num t.size), ("side", PVal.str t.side)]⟩

/-- Row of the coinbase_trades table (models.py lines 55-64). -/
structure TradeRow where
  symbol : String
  price : ℚ
  size : ℚ
  side : String
  trade_id : Int
  timestamp : Nat
deriving DecidableEq

/-- Row of the coinbase_ticker table (models.py lines 66-76). -/
structure TickerRow where
  symbol : String
  best_bid : ℚ
  best_ask : ℚ
  last_price : ℚ
  spread : ℚ
  volume_24h : ℚ
  timestamp : Nat
deriving DecidableEq

/-- Row of the coinbase_candles table (models.py lines 78-89).  The open
column is spelled open_p because `open` is reserved in Lean. -/
structure CandleRow where
  symbol : String
  open_p : ℚ
  high : ℚ
  low : ℚ
  close : ℚ
  volume : ℚ
  trade_count : Nat
  timestamp : Nat
deriving DecidableEq

/-- State of the store: the three tables the claims touch, each as its rows
in insertion order. -/
structure DB where
  trades : List TradeRow
  ticker : List TickerRow
  candles : List CandleRow
deriving DecidableEq

/-- Embedding of `insert_trade` (database.py lines 64-81; identical logic in
crypto_ingestion.py lines 151-168).  `ok` is the outcome of the underlying
INSERT+commit against the external store; on failure the except branch logs,
rolls back (table unchanged) and the method returns normally either way, so
no exception reaches the caller and there is no retry. -/
def insert_trade (ok : Bool) (db : DB) (t : Trade) : DB :=
  if ok then
    { db with trades := db.trades ++ [⟨t.symbol, t.price, t.size, t.side, t.trade_id, t.time.wall⟩] }
  else db

/-- Embedding of `insert_ticker` (database.py lines 44-62; identical logic in
crypto_ingestion.py lines 170-189): computes spread = best_ask - best_bid and
appends the row; on store failure it rolls back and returns normally. -/
def insert_ticker (ok : Bool) (db : DB) (t : Ticker) : DB :=
  if ok then
    { db with ticker := db.ticker ++ [⟨t.symbol, t.best_bid, t.best_ask, t.last_price, t.best_ask - t.best_bid, t.volume_24h, t.time.wall⟩] }
  else db

/-- Streaming loop restricted to its persistence effect: each decoded event is
handed to its insert with that write's store outcome, and the loop always
proceeds to the next event. -/
def processEvents (db : DB) : List (Event × Bool) → DB
  | [] => db
  | (Event.trade t, ok) :: rest => processEvents (insert_trade ok db t) rest
  | (Event.ticker t, ok) :: rest => processEvents (insert_ticker ok db t) rest

/-- QuestDB `date_trunc('minute', ts)` on seconds. -/
def minuteTrunc (t : Nat) : Nat := t / 60 * 60

/-- Aggregation of one (symbol, minute-bucket) group of the trades sweep:
first/max/min/last price in table order, sum of sizes, row count
(crypto_ingestion.py lines 315-329). -/
def aggTrades (s : String) (b : Nat) (rows : List TradeRow) : Option CandleRow :=
  match rows.filter (fun t => decide (t.symbol = s ∧ minuteTrunc t.timestamp = b)) with
  | [] => none
  | r :: rs =>
    some ⟨s, r.price,
      (rs.map (fun t => t.price)).foldl max r.price,
      (rs.map (fun t => t.price)).foldl min r.price,
      (rs.getLastD r).price,
      (rs.map (fun t => t.size)).foldl (· + ·) r.size,
      rs.length + 1, b⟩

/-- Trades of the trailing 24h window:
`WHERE timestamp >= dateadd('h', -24, now())`. -/
def tradesWindow (now : Nat) (db : DB) : List TradeRow :=
  db.trades.filter (fun t => decide (now - 86400 ≤ t.timestamp))

/-- Group keys of the trades sweep. -/
def tradesKeys (now : Nat) (db : DB) : List (String × Nat) :=
  ((tradesWindow now db).map (fun t => (t.symbol, minuteTrunc t.timestamp))).dedup

/-- Embedding of `CoinbaseDataIngestion.generate_candles` (crypto_ingestion.py
lines 303-343), one sweep: when the trades table is nonempty, the
INSERT-SELECT appends one aggregated candle row per (symbol, minute) group of
the trailing 24h window.  No already-materialized bucket is excluded. -/
def ci_generate_candles (now : Nat) (db : DB) : DB :=
  if db.trades.length = 0 then db
  else
    { db with candles := db.candles ++ (tradesKeys now db).filterMap (fun k => aggTrades k.1 k.2 (tradesWindow now db)) }

/-- Candle bucket timestamps already materialized inside the trailing 2h
window — the NOT IN subselect of database.py lines 100-103.  The subselect
projects the timestamp column only, so the exclusion is keyed on the bucket
timestamp alone, not on (symbol, timestamp). -/
def existingBuckets (now : Nat) (db : DB) : List Nat :=
  (db.candles.filter (fun c => decide (now - 7200 ≤ c.timestamp))).map (fun c => c.timestamp)

/-- Ticker rows passing the WHERE clause of the ticker sweep: inside the 2h
window and with a minute bucket not already materialized. -/
def tickerEligible (now : Nat) (db : DB) : List TickerRow :=
  db.ticker.filter (fun r => decide (now - 7200 ≤ r.timestamp ∧ minuteTrunc r.timestamp ∉ existingBuckets now db))

/-- Group keys of the ticker sweep. -/
def tickerKeys (now : Nat) (db : DB) : List (String × Nat) :=
  ((tickerEligible now db).map (fun r => (r.symbol, minuteTrunc r.timestamp))).dedup

/-- Aggregation of one (symbol, minute) group of the ticker sweep:
first/max/min/last last_price, average of volume_24h, row count
(database.py lines 88-97). -/
def aggTicker (s : String) (b : Nat) (rows : List TickerRow) : Option CandleRow :=
  match rows.filter (fun r => decide (r.symbol = s ∧ minuteTrunc r.timestamp = b)) with
  | [] => none
  | r :: rs =>
    some ⟨s, r.last_price,
      (rs.map (fun t => t.last_price)).foldl max r.last_price,
      (rs.map (fun t => t.last_price)).foldl min r.last_price,
      (rs.getLastD r).last_price,
      ((rs.map (fun t => t.volume_24h)).foldl (· + ·) r.volume_24h) / ((rs.length : ℚ) + 1),
      rs.length + 1, b⟩

/-- Embedding of `QuestDBClient.generate_candles` (database.py lines 83-113),
one sweep: appends one candle per (symbol, minute) group of eligible ticker
rows, excluding minutes whose bucket timestamp is already materialized. -/
def db_generate_candles (now : Nat) (db : DB) : DB :=
  { db with candles := db.candles ++ (tickerKeys now db).filterMap (fun k => aggTicker k.1 k.2 (tickerEligible now db)) }

/-- Connected client as the broadcast loop sees it: an identifier plus whether
`send_json` raises for this publish. -/
structure Client where
  cid : Nat
  fails : Bool
deriving DecidableEq

/-- For-loop of `broadcast_to_clients` (main.py lines 43-48; identical loop in
crypto_ingestion.py lines 348-353): attempts delivery to every client in
turn, collecting delivered ids and the disconnected set. -/
def broadcastLoop (clients : List Client) : List Nat × List Client :=
  clients.foldl
    (fun acc c => if c.fails then (acc.1, acc.2 ++ [c]) else (acc.1 ++ [c.cid], acc.2))
    ([], [])

/-- Embedding of `broadcast_to_clients` (main.py lines 40-49;
crypto_ingestion.py lines 345-356): if any client is registered, attempt
delivery to each, then remove the collected disconnected clients from the
registry.  Returns the new registry and the delivered ids; the function is
total, so no delivery error reaches the publisher. -/
def broadcast_to_clients (clients : List Client) : List Client × List Nat :=
  if clients.isEmpty then (clients, [])
  else
    let r := broadcastLoop clients
    (clients.filter (fun c => decide (c ∉ r.2)), r.1)

/-- Outcome of `await client.send_json(...)` for one subscriber in one
publish: the await returns, raises, or never completes.  The source awaits
each send inline with no timeout and no per-subscriber queue, so a send that
never completes suspends the publish call itself. -/
inductive SendOutcome where
  | ok : SendOutcome
  | raises : SendOutcome
  | blocks : SendOutcome
deriving DecidableEq

/-- Connected client together with its delivery outcome for this publish. -/
structure Client10 where
  cid : Nat
  outcome : SendOutcome
deriving DecidableEq

/-- Sequential delivery of the broadcast for-loop with blocking explicit:
delivered ids, collected disconnected clients, and whether the loop ran to
completion (false when some await never returned). -/
def deliverSeq : List Client10 → List Nat × List Client10 × Bool
  | [] => ([], [], true)
  | c :: cs =>
    match c.outcome with
    | SendOutcome.blocks => ([], [], false)
    | SendOutcome.raises =>
      let r := deliverSeq cs
      (r.1, c :: r.2.1, r.2.2)
    | SendOutcome.ok =>
      let r := deliverSeq cs
      (c.cid :: r.1, r.2.1, r.2.2)

/-- Embedding of `broadcast_to_clients` under the explicit-blocking delivery
semantics: first component is the ids delivered before the loop stalled (if
it did); second is the updated registry when the publish call completed, and
`none` when a blocking subscriber kept the call from returning, in which case
the eviction line `connected_clients -= disconnected` never runs. -/
def broadcastB (clients : List Client10) : List Nat × Option (List Client10) :=
  if clients.isEmpty then ([], some clients)
  else
    let r := deliverSeq clients
    (r.1, if r.2.2 then some (clients.filter (fun c => decide (c ∉ r.2.1))) else none)

/-- One finished iteration of the reconnect loop: streaming on a connection
always ends in a transport error, and `stopSignalled` records whether the
external stop (`running = False`) arrived during the iteration. -/
structure IterOutcome where
  stopSignalled : Bool
deriving DecidableEq

/-- Observable actions of the connection manager. -/
inductive MAction where
  | connectAttempt : MAction
  | delay (seconds : Nat) : MAction
deriving DecidableEq

/-- Embedding of the reconnect loop of `connect_and_subscribe`
(websocket_client.py lines 58-70): while running, attempt a connection;
when a transport error ends it, sleep the fixed reconnect delay — but only
when still running — then re-check running and loop. -/
def wcLoop (running : Bool) : List IterOutcome → List MAction
  | [] => []
  | it :: rest =>
    if running then
      MAction.connectAttempt ::
        (if !it.stopSignalled then
          MAction.delay WEBSOCKET_RECONNECT_DELAY :: wcLoop (!it.stopSignalled) rest
        else wcLoop (!it.stopSignalled) rest)
    else []

/-- Embedding of the reconnect loop of `coinbase_websocket_feed`
(crypto_ingestion.py lines 244-301): identical, except the 5-second sleep in
the except branch is unconditional. -/
def ciLoop (running : Bool) : List IterOutcome → List MAction
  | [] => []
  | it :: rest =>
    if running then
      MAction.connectAttempt :: MAction.delay 5 :: ciLoop (!it.stopSignalled) rest
    else []

/-! Helper lemmas. -/

@[simp]
theorem except_error_bind {α β : Type} (e : String) (f : α → Except String β) :
    (Except.error e >>= f) = Except.error e := rfl

@[simp]
theorem except_ok_bind {α β : Type} (a : α) (f : α → Except String β) :
    (Except.ok a >>= f) = f a := rfl

@[simp]
theorem except_map_error {α β : Type} (e : String) (f : α → β) :
    (Except.error e : Except String α).map f = Except.error e := rfl

@[simp]
theorem except_map_ok {α β : Type} (a : α) (f : α → β) :
    (Except.ok a : Except String α).map f = Except.ok (f a) := rfl

/-- C7: Timestamp normalization.  Parsing the explicit-UTC (Z-suffixed) form
round-trips its wall-clock fields; a string without a zone marker is left
unchanged; but a string carrying a nonzero explicit timezone offset is NOT
converted to UTC — `dt.replace(tzinfo=None)` drops the offset keeping the
local wall-clock fields, contradicting the function's own documentation
("return naive UTC datetime").  Failing input: `2025-06-22T13:48:39+05:30`
(wall clock 13:48:39 encoded as 49719 seconds, offset 19800 seconds): the
code returns wall clock 49719 while the same instant in UTC has wall clock
29919 (08:18:39). -/
theorem C7_timestamp_normalization :
    parse_coinbase_time ⟨49719, Zone.zulu⟩ = ⟨49719, none⟩
  ∧ utcWall (fromisoformat (replaceZ ⟨49719, Zone.zulu⟩)) = 49719
  ∧ parse_coinbase_time ⟨49719, Zone.noMarker⟩ = ⟨49719, none⟩
  ∧ parse_coinbase_time ⟨49719, Zone.offset 19800⟩ = ⟨49719, none⟩
  ∧ utcWall (fromisoformat ⟨49719, Zone.offset 19800⟩) = 29919
  ∧ (49719 : Int) ≠ 29919 := by
  refine ⟨rfl, rfl, rfl, rfl, rfl, by decide⟩

/-- C6: Store-write failure is isolated and atomic.  A failed INSERT is
rolled back leaving the table unchanged, the insert method returns normally
(it is a total function, so no exception reaches the caller), the streaming
loop goes on to process the remaining events, and the dropped write never
reappears (no retry). -/
theorem C6_store_write_failure_isolated (db : DB) (t : Trade) (k : Ticker)
    (rest : List (Event × Bool)) :
    insert_trade false db t = db
  ∧ insert_ticker false db k = db
  ∧ processEvents db ((Event.trade t, false) :: rest) = processEvents db rest
  ∧ processEvents db ((Event.ticker k, false) :: rest) = processEvents db rest := by
  refine ⟨rfl, rfl, ?_, ?_⟩ <;> simp [processEvents, insert_trade, insert_ticker]

/-- C3: Reconnect-with-delay and cooperative stop.  After a transport error
with the manager still running, the next actions are a delay of
WEBSOCKET_RECONNECT_DELAY = 5 seconds followed by the next connect attempt;
every iteration entered while running begins with a connect attempt; once the
stop signal arrives during an iteration, the loop performs no further connect
attempt; and with running false no connect attempt is ever made.  Both the
modular loop (websocket_client.py) and the monolithic loop
(crypto_ingestion.py) are covered. -/
theorem C3_reconnect_delay_and_stop (rest : List IterOutcome) :
    wcLoop true (⟨false⟩ :: rest)
      = MAction.connectAttempt :: MAction.delay WEBSOCKET_RECONNECT_DELAY :: wcLoop true rest
  ∧ (∀ it rest', (wcLoop true (it :: rest')).head? = some MAction.connectAttempt)
  ∧ wcLoop true (⟨true⟩ :: rest) = [MAction.connectAttempt]
  ∧ (∀ s, wcLoop false s = [])
  ∧ ciLoop true (⟨false⟩ :: rest)
      = MAction.connectAttempt :: MAction.delay 5 :: ciLoop true rest
  ∧ ciLoop true (⟨true⟩ :: rest) = [MAction.connectAttempt, MAction.delay 5]
  ∧ (∀ s, ciLoop false s = []) := by
  have hwf : ∀ s, wcLoop false s = [] := by
    intro s; cases s <;> simp [wcLoop]
  have hcf : ∀ s, ciLoop false s = [] := by
    intro s; cases s <;> simp [ciLoop]
  refine ⟨by simp [wcLoop], ?_, ?_, hwf, by simp [ciLoop], ?_, hcf⟩
  · intro it rest'; simp [wcLoop]
  · simp [wcLoop, hwf rest]
  · simp [ciLoop, hcf rest]

/-- C9 counterexample: the claim quantifies over every decoded event handed
to the broadcast path, but the monolithic path (crypto_ingestion.py lines
266-275 and 289-297) publishes a ticker payload without a spread key and a
trade payload without a time key. -/
theorem C9_payload_counterexample :
    "spread" ∉ payloadKeys (ci_ticker_payload ⟨"BTC-USD", 99, 101, 100, 5, ⟨100, none⟩⟩)
  ∧ "time" ∉ payloadKeys (ci_trade_payload ⟨"BTC-USD", 100, 1, "buy", ⟨100, none⟩, 7⟩) := by
  decide

/-- C9 amended: the stated payload shapes — ticker data keys symbol, price,
bid, ask, volume, spread with spread = best_ask - best_bid of the same
update, and trade data keys symbol, price, size, side, time — hold for every
event broadcast by the modular websocket_client.py path; the monolithic
crypto_ingestion.py path publishes the same payloads minus the spread key
(ticker) and minus the time key (trade). -/
theorem C9_payload_shapes_amended (tk : Ticker) (tr : Trade) :
    payloadKeys (wc_ticker_payload tk) = ["symbol", "price", "bid", "ask", "volume", "spread"]
  ∧ (wc_ticker_payload tk).data.lookup "spread" = some (PVal.num (tk.best_ask - tk.best_bid))
  ∧ (wc_ticker_payload tk).type_ = "ticker"
  ∧ payloadKeys (wc_trade_payload tr) = ["symbol", "price", "size", "side", "time"]
  ∧ (wc_trade_payload tr).type_ = "trade"
  ∧ payloadKeys (ci_ticker_payload tk) = ["symbol", "price", "bid", "ask", "volume"]
  ∧ payloadKeys (ci_trade_payload tr) = ["symbol", "price", "size", "side"] := by
  refine ⟨rfl, ?_, rfl, rfl, rfl, rfl, rfl⟩
  simp [wc_ticker_payload, List.lookup]

/-- Successful ticker decoding requires every ticker field to be present and
every numeric ticker field to convert. -/
theorem decodeTicker_ok_fields {d : RawFrame} {t : Ticker}
    (h : decodeTicker d = Except.ok t) :
    d.product_id.isSome
      ∧ (∃ q, d.best_bid = some (FVal.num q))
      ∧ (∃ q, d.best_ask = some (FVal.num q))
      ∧ (∃ q, d.price = some (FVal.num q))
      ∧ (∃ q, d.volume_24h = some (FVal.num q))
      ∧ d.time.isSome := by
  unfold decodeTicker at h
  cases hpid : d.product_id with
  | none => rw [hpid] at h; simp [getItem] at h
  | some pid =>
  rw [hpid] at h
  simp only [getItem, except_ok_bind] at h
  cases hbb : d.best_bid with
  | none => rw [hbb] at h; simp [getItem] at h
  | some bb =>
  rw [hbb] at h
  cases bb with
  | text => simp [getItem, pyFloat] at h
  | num q1 =>
  simp only [getItem, pyFloat, except_ok_bind] at h
  cases hba : d.best_ask with
  | none => rw [hba] at h; simp [getItem] at h
  | some ba =>
  rw [hba] at h
  cases ba with
  | text => simp [getItem, pyFloat] at h
  | num q2 =>
  simp only [getItem, pyFloat, except_ok_bind] at h
  cases hp : d.price with
  | none => rw [hp] at h; simp [getItem] at h
  | some p =>
  rw [hp] at h
  cases p with
  | text => simp [getItem, pyFloat] at h
  | num q3 =>
  simp only [getItem, pyFloat, except_ok_bind] at h
  cases hv : d.volume_24h with
  | none => rw [hv] at h; simp [getItem] at h
  | some v =>
  rw [hv] at h
  cases v with
  | text => simp [getItem, pyFloat] at h
  | num q4 =>
  simp only [getItem, pyFloat, except_ok_bind] at h
  cases htm : d.time with
  | none => rw [htm] at h; simp [getItem] at h
  | some tm =>
  exact ⟨rfl, ⟨q1, rfl⟩, ⟨q2, rfl⟩, ⟨q3, rfl⟩, ⟨q4, rfl⟩, rfl⟩

/-- Successful trade decoding requires every trade field to be present and
every numeric trade field to convert. -/
theorem decodeTrade_ok_fields {d : RawFrame} {t : Trade}
    (h : decodeTrade d = Except.ok t) :
    d.product_id.isSome
      ∧ (∃ q, d.price = some (FVal.num q))
      ∧ (∃ q, d.size = some (FVal.num q))
      ∧ d.side.isSome
      ∧ d.time.isSome
      ∧ (∃ q, d.trade_id = some (FVal.num q)) := by
  unfold decodeTrade at h
  cases hpid : d.product_id with
  | none => rw [hpid] at h; simp [getItem] at h
  | some pid =>
  rw [hpid] at h
  simp only [getItem, except_ok_bind] at h
  cases hp : d.price with
  | none => rw [hp] at h; simp [getItem] at h
  | some p =>
  rw [hp] at h
  cases p with
  | text => simp [getItem, pyFloat] at h
  | num q1 =>
  simp only [getItem, pyFloat, except_ok_bind] at h
  cases hsz : d.size with
  | none => rw [hsz] at h; simp [getItem] at h
  | some sz =>
  rw [hsz] at h
  cases sz with
  | text => simp [getItem, pyFloat] at h
  | num q2 =>
  simp only [getItem, pyFloat, except_ok_bind] at h
  cases hsd : d.side with
  | none => rw [hsd] at h; simp [getItem] at h
  | some sd =>
  rw [hsd] at h
  simp only [getItem, except_ok_bind] at h
  cases htm : d.time with
  | none => rw [htm] at h; simp [getItem] at h
  | some tm =>
  rw [htm] at h
  simp only [getItem, except_ok_bind] at h
  cases hti : d.trade_id with
  | none => rw [hti] at h; simp [getItem] at h
  | some ti =>
  rw [hti] at h
  cases ti with
  | text => simp [getItem, pyInt] at h
  | num q3 =>
    exact ⟨rfl, ⟨q1, rfl⟩, ⟨q2, rfl⟩, rfl, rfl, ⟨q3, rfl⟩⟩

/-- Ticker decoding fails when a required field is absent or a required
numeric field does not convert. -/
theorem decodeTicker_error_of_missing {d : RawFrame}
    (h : d.product_id = none
      ∨ d.best_bid = none ∨ d.best_bid = some FVal.text
      ∨ d.best_ask = none ∨ d.best_ask = some FVal.text
      ∨ d.price = none ∨ d.price = some FVal.text
      ∨ d.volume_24h = none ∨ d.volume_24h = some FVal.text
      ∨ d.time = none) :
    ∃ e, decodeTicker d = Except.error e := by
  cases hd : decodeTicker d with
  | error e => exact ⟨e, rfl⟩
  | ok t =>
    obtain ⟨h1, ⟨q2, h2⟩, ⟨q3, h3⟩, ⟨q4, h4⟩, ⟨q5, h5⟩, h6⟩ := decodeTicker_ok_fields hd
    rcases h with h | h | h | h | h | h | h | h | h | h <;>
      first
        | (rw [h] at h1; simp at h1)
        | (rw [h] at h2; simp at h2)
        | (rw [h] at h3; simp at h3)
        | (rw [h] at h4; simp at h4)
        | (rw [h] at h5; simp at h5)
        | (rw [h] at h6; simp at h6)

/-- Trade decoding fails when a required field is absent or a required
numeric field does not convert. -/
theorem decodeTrade_error_of_missing {d : RawFrame}
    (h : d.product_id = none
      ∨ d.price = none ∨ d.price = some FVal.text
      ∨ d.size = none ∨ d.size = some FVal.text
      ∨ d.side = none
      ∨ d.time = none
      ∨ d.trade_id = none ∨ d.trade_id = some FVal.text) :
    ∃ e, decodeTrade d = Except.error e := by
  cases hd : decodeTrade d with
  | error e => exact ⟨e, rfl⟩
  | ok t =>
    obtain ⟨h1, ⟨q2, h2⟩, ⟨q3, h3⟩, h4, h5, ⟨q6, h6⟩⟩ := decodeTrade_ok_fields hd
    rcases h with h | h | h | h | h | h | h | h | h <;>
      first
        | (rw [h] at h1; simp at h1)
        | (rw [h] at h2; simp at h2)
        | (rw [h] at h3; simp at h3)
        | (rw [h] at h4; simp at h4)
        | (rw [h] at h5; simp at h5)
        | (rw [h] at h6; simp at h6)

/-- Concrete malformed ticker frame: its best_bid field is absent. -/
def badFrame : RawFrame :=
  ⟨some "ticker", some "BTC-USD", some (FVal.num 50000), none, some (FVal.num 50001),
    some (FVal.num 10), none, none, none, some ⟨100, Zone.zulu⟩⟩

/-- Concrete well-formed ticker frame. -/
def goodFrame : RawFrame :=
  ⟨some "ticker", some "ETH-USD", some (FVal.num 2500), some (FVal.num 2499),
    some (FVal.num 2501), some (FVal.num 42), none, none, none, some ⟨200, Zone.zulu⟩⟩

/-- C2 counterexample: in the monolithic receive loop
(crypto_ingestion.py lines 244-301) a ticker frame missing best_bid raises,
the raise escapes the async-for, and the connection is abandoned: the
well-formed frame following it on the same connection is never processed and
the outer handler sleeps and reconnects — refuting the claim that subsequent
frames on the same connection are still processed after a malformed frame.
Processed alone, the same well-formed frame does yield its event. -/
theorem C2_decode_counterexample :
    ciProcessFrames [badFrame, goodFrame] = ([], some "KeyError")
  ∧ ciProcessFrames [goodFrame]
      = ([Event.ticker ⟨"ETH-USD", 2499, 2501, 2500, 42, ⟨200, none⟩⟩], none) := by
  decide

/-- C2 amended: for every inbound frame of a recognized kind missing a
required field or carrying a required numeric field that does not convert,
the modular decoder (websocket_client.py `_process_message`) drops the frame
emitting no event, no exception escapes it (it is a total function), and the
receive loop processes the remaining frames unchanged; the monolithic loop in
crypto_ingestion.py, by contrast, lets the decode error escape, emitting
nothing for the rest of the connection and abandoning it (sleep 5 seconds,
then reconnect). -/
theorem C2_decode_robustness_amended (f : RawFrame) (rest : List RawFrame)
    (hm : f.product_id = none
      ∨ f.price = none ∨ f.price = some FVal.text
      ∨ f.time = none
      ∨ (f.type_ = some "ticker"
          ∧ (f.best_bid = none ∨ f.best_bid = some FVal.text
            ∨ f.best_ask = none ∨ f.best_ask = some FVal.text
            ∨ f.volume_24h = none ∨ f.volume_24h = some FVal.text))
      ∨ (f.type_ = some "match"
          ∧ (f.size = none ∨ f.size = some FVal.text
            ∨ f.side = none
            ∨ f.trade_id = none ∨ f.trade_id = some FVal.text))) :
    process_message f = none
  ∧ wcProcessFrames (f :: rest) = wcProcessFrames rest
  ∧ (∀ e, ciDecode f = Except.error e → ciProcessFrames (f :: rest) = ([], some e)) := by
  have hpm : process_message f = none := by
    unfold process_message wcDecode
    by_cases h1 : f.type_ = some "ticker"
    · rw [if_pos h1]
      have hmiss : f.product_id = none
          ∨ f.best_bid = none ∨ f.best_bid = some FVal.text
          ∨ f.best_ask = none ∨ f.best_ask = some FVal.text
          ∨ f.price = none ∨ f.price = some FVal.text
          ∨ f.volume_24h = none ∨ f.volume_24h = some FVal.text
          ∨ f.time = none := by
        rcases hm with h | h | h | h | ⟨_, h⟩ | ⟨h3, _⟩
        · tauto
        · tauto
        · tauto
        · tauto
        · rcases h with h | h | h | h | h | h <;> tauto
        · rw [h1] at h3; simp at h3
      obtain ⟨e, he⟩ := decodeTicker_error_of_missing hmiss
      rw [he]; rfl
    · rw [if_neg h1]
      by_cases h2 : f.type_ = some "match"
      · rw [if_pos h2]
        have hmiss : f.product_id = none
            ∨ f.price = none ∨ f.price = some FVal.text
            ∨ f.size = none ∨ f.size = some FVal.text
            ∨ f.side = none
            ∨ f.time = none
            ∨ f.trade_id = none ∨ f.trade_id = some FVal.text := by
          rcases hm with h | h | h | h | ⟨h3, _⟩ | ⟨_, h⟩
          · tauto
          · tauto
          · tauto
          · tauto
          · rw [h2] at h3; simp at h3
          · rcases h with h | h | h | h | h <;> tauto
        obtain ⟨e, he⟩ := decodeTrade_error_of_missing hmiss
        rw [he]; rfl
      · rw [if_neg h2]
  refine ⟨hpm, ?_, ?_⟩
  · simp [wcProcessFrames, List.filterMap_cons, hpm]
  · intro e he
    simp [ciProcessFrames, he]

/-- Concrete malformed ticker frame of the other kind: every field present
but volume_24h holds text that `float` cannot convert. -/
def textFrame : RawFrame :=
  ⟨some "ticker", some "BTC-USD", some (FVal.num 50000), some (FVal.num 49999),
    some (FVal.num 50001), some FVal.text, none, none, none, some ⟨100, Zone.zulu⟩⟩

/-- C2 witness: the amended theorem applied to a frame with an absent
required field (MissingField) and to a frame with a non-convertible numeric
field (TypeMismatch), each followed by a well-formed frame. -/
theorem C2_decode_robustness_witness :
    (process_message badFrame = none
      ∧ wcProcessFrames (badFrame :: [goodFrame]) = wcProcessFrames [goodFrame]
      ∧ (∀ e, ciDecode badFrame = Except.error e
          → ciProcessFrames (badFrame :: [goodFrame]) = ([], some e)))
  ∧ (process_message textFrame = none
      ∧ wcProcessFrames (textFrame :: [goodFrame]) = wcProcessFrames [goodFrame]
      ∧ (∀ e, ciDecode textFrame = Except.error e
          → ciProcessFrames (textFrame :: [goodFrame]) = ([], some e))) :=
  ⟨C2_decode_robustness_amended badFrame [goodFrame] (by decide),
   C2_decode_robustness_amended textFrame [goodFrame] (by decide)⟩

/-- Characterization of the broadcast for-loop: it delivers to exactly the
non-failing clients in order and collects exactly the failing ones. -/
theorem broadcastLoop_spec (clients : List Client) :
    broadcastLoop clients
      = ((clients.filter (fun c => !c.fails)).map (fun c => c.cid),
        clients.filter (fun c => c.fails)) := by
  have aux : ∀ (l : List Client) (acc : List Nat × List Client),
      l.foldl (fun acc c => if c.fails then (acc.1, acc.2 ++ [c]) else (acc.1 ++ [c.cid], acc.2)) acc
        = (acc.1 ++ (l.filter (fun c => !c.fails)).map (fun c => c.cid),
          acc.2 ++ l.filter (fun c => c.fails)) := by
    intro l
    induction l with
    | nil => intro acc; simp
    | cons c cs ih =>
      intro acc
      cases hf : c.fails <;>
        simp [List.foldl_cons, hf, ih, List.filter_cons, List.append_assoc]
  simpa [broadcastLoop] using aux clients ([], [])

/-- C5: Broadcast failure isolation.  In every publish, each client whose
delivery raises is removed from the registry by the end of the call, delivery
is still attempted to (and succeeds for) every other registered client, and
no error propagates to the publisher — the embedded `broadcast_to_clients` is
a total function because the bare except absorbs every per-client failure. -/
theorem C5_broadcast_failure_isolation (clients : List Client) :
    (∀ c ∈ clients, c.fails = true → c ∉ (broadcast_to_clients clients).1)
  ∧ (∀ c ∈ clients, c.fails = false →
      c.cid ∈ (broadcast_to_clients clients).2 ∧ c ∈ (broadcast_to_clients clients).1) := by
  by_cases hemp : clients.isEmpty
  · have hnil : clients = [] := by
      cases clients with
      | nil => rfl
      | cons a l => simp [List.isEmpty] at hemp
    subst hnil
    simp
  · unfold broadcast_to_clients
    rw [if_neg hemp, broadcastLoop_spec]
    constructor
    · intro c hc hf hmem
      have h2 := (List.mem_filter.mp hmem).2
      rw [decide_eq_true_eq] at h2
      exact h2 (List.mem_filter.mpr ⟨hc, hf⟩)
    · intro c hc hf
      constructor
      · exact List.mem_map.mpr ⟨c, List.mem_filter.mpr ⟨hc, by rw [hf]; rfl⟩, rfl⟩
      · refine List.mem_filter.mpr ⟨hc, ?_⟩
        rw [decide_eq_true_eq]
        intro hmem
        have h2 := (List.mem_filter.mp hmem).2
        rw [hf] at h2
        exact Bool.false_ne_true h2

/-- C5 witness: publishing to a registry holding one failing and one healthy
client removes the failing one and still delivers to the healthy one. -/
theorem C5_broadcast_failure_isolation_witness :
    (⟨1, true⟩ : Client) ∉ (broadcast_to_clients [⟨1, true⟩, ⟨2, false⟩]).1
  ∧ 2 ∈ (broadcast_to_clients [⟨1, true⟩, ⟨2, false⟩]).2
  ∧ (⟨2, false⟩ : Client) ∈ (broadcast_to_clients [⟨1, true⟩, ⟨2, false⟩]).1 :=
  ⟨(C5_broadcast_failure_isolation [⟨1, true⟩, ⟨2, false⟩]).1 ⟨1, true⟩ (by decide) rfl,
   ((C5_broadcast_failure_isolation [⟨1, true⟩, ⟨2, false⟩]).2 ⟨2, false⟩ (by decide) rfl).1,
   ((C5_broadcast_failure_isolation [⟨1, true⟩, ⟨2, false⟩]).2 ⟨2, false⟩ (by decide) rfl).2⟩

/-- Characterization of sequential delivery when no client blocks. -/
theorem deliverSeq_no_blocks (l : List Client10)
    (h : ∀ c ∈ l, c.outcome ≠ SendOutcome.blocks) :
    deliverSeq l
      = ((l.filter (fun c => decide (c.outcome = SendOutcome.ok))).map (fun c => c.cid),
        l.filter (fun c => decide (c.outcome = SendOutcome.raises)), true) := by
  induction l with
  | nil => rfl
  | cons c cs ih =>
    have hc := h c (List.mem_cons_self c cs)
    have hrest : ∀ x ∈ cs, x.outcome ≠ SendOutcome.blocks :=
      fun x hx => h x (List.mem_cons_of_mem c hx)
    cases ho : c.outcome with
    | blocks => exact absurd ho hc
    | ok => simp [deliverSeq, ho, ih hrest, List.filter_cons]
    | raises => simp [deliverSeq, ho, ih hrest, List.filter_cons]

/-- Sequential delivery stalls at the first blocking client: everything after
it is undelivered and the loop never completes. -/
theorem deliverSeq_blocks (pre : List Client10) (cb : Client10) (post : List Client10)
    (h : ∀ a ∈ pre, a.outcome ≠ SendOutcome.blocks)
    (hb : cb.outcome = SendOutcome.blocks) :
    deliverSeq (pre ++ cb :: post)
      = ((pre.filter (fun c => decide (c.outcome = SendOutcome.ok))).map (fun c => c.cid),
        pre.filter (fun c => decide (c.outcome = SendOutcome.raises)), false) := by
  induction pre with
  | nil => simp [deliverSeq, hb]
  | cons a pres ih =>
    have ha := h a (List.mem_cons_self a pres)
    have hrest : ∀ x ∈ pres, x.outcome ≠ SendOutcome.blocks :=
      fun x hx => h x (List.mem_cons_of_mem a hx)
    cases ho : a.outcome with
    | blocks => exact absurd ho ha
    | ok => simp [deliverSeq, ho, ih hrest, List.filter_cons]
    | raises => simp [deliverSeq, ho, ih hrest, List.filter_cons]

/-- C10 counterexample: with a registry of one never-draining subscriber
followed by one healthy subscriber, the publish call delivers to nobody and
never reaches the eviction line (second component none): the blocking
subscriber is not evicted and delivery to the healthy subscriber within the
same publish call never happens, refuting the claimed independent bounded
delivery path. -/
theorem C10_slow_subscriber_counterexample :
    broadcastB [⟨1, SendOutcome.blocks⟩, ⟨2, SendOutcome.ok⟩] = ([], none) := by
  decide

/-- C10 amended: when no subscriber's send blocks, every publish completes,
evicts exactly the subscribers whose delivery raised, and delivers to every
healthy subscriber — but delivery is a sequential await per subscriber with
no timeout and no per-subscriber queue, so a subscriber whose delivery path
never drains stalls the publish call itself: subscribers after it receive
nothing and no eviction ever happens. -/
theorem C10_slow_subscriber_amended :
    (∀ clients : List Client10, (∀ c ∈ clients, c.outcome ≠ SendOutcome.blocks) →
      ∃ reg, (broadcastB clients).2 = some reg
        ∧ (∀ c ∈ clients, c.outcome = SendOutcome.raises → c ∉ reg)
        ∧ (∀ c ∈ clients, c.outcome = SendOutcome.ok →
            c.cid ∈ (broadcastB clients).1 ∧ c ∈ reg))
  ∧ (∀ (pre post : List Client10) (cb : Client10),
      (∀ a ∈ pre, a.outcome ≠ SendOutcome.blocks) →
      cb.outcome = SendOutcome.blocks →
      (broadcastB (pre ++ cb :: post)).2 = none
        ∧ (broadcastB (pre ++ cb :: post)).1
            = (pre.filter (fun c => decide (c.outcome = SendOutcome.ok))).map (fun c => c.cid)) := by
  constructor
  · intro clients hnb
    by_cases hemp : clients.isEmpty
    · have hnil : clients = [] := by
        cases clients with
        | nil => rfl
        | cons a l => simp [List.isEmpty] at hemp
      subst hnil
      exact ⟨[], rfl, by simp, by simp⟩
    · refine ⟨clients.filter (fun c => decide (c ∉ clients.filter (fun c => decide (c.outcome = SendOutcome.raises)))), ?_, ?_, ?_⟩
      · unfold broadcastB
        rw [if_neg hemp, deliverSeq_no_blocks clients hnb]
        simp
      · intro c hc hr hmem
        have h2 := (List.mem_filter.mp hmem).2
        rw [decide_eq_true_eq] at h2
        exact h2 (List.mem_filter.mpr ⟨hc, by rw [decide_eq_true_eq]; exact hr⟩)
      · intro c hc ho
        constructor
        · unfold broadcastB
          rw [if_neg hemp, deliverSeq_no_blocks clients hnb]
          exact List.mem_map.mpr
            ⟨c, List.mem_filter.mpr ⟨hc, by rw [decide_eq_true_eq]; exact ho⟩, rfl⟩
        · refine List.mem_filter.mpr ⟨hc, ?_⟩
          rw [decide_eq_true_eq]
          intro hmem
          have h2 := (List.mem_filter.mp hmem).2
          rw [decide_eq_true_eq, ho] at h2
          exact SendOutcome.noConfusion h2
  · intro pre post cb hnb hb
    have hne : ¬ (pre ++ cb :: post).isEmpty := by
      cases pre <;> simp [List.isEmpty]
    unfold broadcastB
    rw [if_neg hne, deliverSeq_blocks pre cb post hnb hb]
    exact ⟨rfl, rfl⟩

/-- C10 witness: the amended theorem at concrete registries — one raising
plus one healthy subscriber for the completing branch, and a healthy
subscriber followed by a blocking one followed by another healthy one for the
stalling branch. -/
theorem C10_slow_subscriber_witness :
    (∃ reg, (broadcastB [⟨1, SendOutcome.raises⟩, ⟨2, SendOutcome.ok⟩]).2 = some reg
      ∧ (⟨1, SendOutcome.raises⟩ : Client10) ∉ reg
      ∧ 2 ∈ (broadcastB [⟨1, SendOutcome.raises⟩, ⟨2, SendOutcome.ok⟩]).1)
  ∧ (broadcastB [⟨3, SendOutcome.ok⟩, ⟨4, SendOutcome.blocks⟩, ⟨5, SendOutcome.ok⟩]).2 = none := by
  have h1 := C10_slow_subscriber_amended.1
    [⟨1, SendOutcome.raises⟩, ⟨2, SendOutcome.ok⟩] (by decide)
  obtain ⟨reg, hreg, hevict, hdel⟩ := h1
  have h2 := C10_slow_subscriber_amended.2
    [⟨3, SendOutcome.ok⟩] [⟨5, SendOutcome.ok⟩] ⟨4, SendOutcome.blocks⟩ (by decide) rfl
  exact ⟨⟨reg, hreg, hevict ⟨1, SendOutcome.raises⟩ (by decide) rfl,
    (hdel ⟨2, SendOutcome.ok⟩ (by decide) rfl).1⟩, h2.1⟩

/-- Folding max over a list yields one of its elements (or the seed). -/
theorem foldl_max_mem (a : ℚ) (l : List ℚ) : l.foldl max a ∈ a :: l := by
  induction l generalizing a with
  | nil => simp
  | cons b l ih =>
    rw [List.foldl_cons]
    rcases List.mem_cons.mp (ih (max a b)) with h | h
    · rcases max_choice a b with hm | hm <;> rw [h, hm] <;> simp
    · exact List.mem_cons_of_mem _ (List.mem_cons_of_mem _ h)

/-- Folding max bounds the seed and every element from above. -/
theorem le_foldl_max (a : ℚ) (l : List ℚ) : ∀ x ∈ a :: l, x ≤ l.foldl max a := by
  induction l generalizing a with
  | nil =>
    intro x hx
    rw [List.mem_singleton] at hx
    simp [hx]
  | cons b l ih =>
    intro x hx
    rw [List.foldl_cons]
    rcases List.mem_cons.mp hx with h | h
    · rw [h]
      exact le_trans (le_max_left a b) (ih (max a b) (max a b) (List.mem_cons_self _ _))
    · rcases List.mem_cons.mp h with h2 | h2
      · rw [h2]
        exact le_trans (le_max_right a b) (ih (max a b) (max a b) (List.mem_cons_self _ _))
      · exact ih (max a b) x (List.mem_cons_of_mem _ h2)

/-- Folding min over a list yields one of its elements (or the seed). -/
theorem foldl_min_mem (a : ℚ) (l : List ℚ) : l.foldl min a ∈ a :: l := by
  induction l generalizing a with
  | nil => simp
  | cons b l ih =>
    rw [List.foldl_cons]
    rcases List.mem_cons.mp (ih (min a b)) with h | h
    · rcases min_choice a b with hm | hm <;> rw [h, hm] <;> simp
    · exact List.mem_cons_of_mem _ (List.mem_cons_of_mem _ h)

/-- Folding min bounds the seed and every element from below. -/
theorem foldl_min_le (a : ℚ) (l : List ℚ) : ∀ x ∈ a :: l, l.foldl min a ≤ x := by
  induction l generalizing a with
  | nil =>
    intro x hx
    rw [List.mem_singleton] at hx
    simp [hx]
  | cons b l ih =>
    intro x hx
    rw [List.foldl_cons]
    rcases List.mem_cons.mp hx with h | h
    · rw [h]
      exact le_trans (ih (min a b) (min a b) (List.mem_cons_self _ _)) (min_le_left a b)
    · rcases List.mem_cons.mp h with h2 | h2
      · rw [h2]
        exact le_trans (ih (min a b) (min a b) (List.mem_cons_self _ _)) (min_le_right a b)
      · exact ih (min a b) x (List.mem_cons_of_mem _ h2)

/-- Folding addition equals the seed plus the sum. -/
theorem foldl_add_eq (a : ℚ) (l : List ℚ) : l.foldl (· + ·) a = a + l.sum := by
  induction l generalizing a with
  | nil => simp
  | cons b l ih => rw [List.foldl_cons, ih (a + b), List.sum_cons, add_assoc]

/-- Dedup of a nonempty constant list is the singleton. -/
theorem dedup_all_eq {α : Type} [DecidableEq α] (a : α) :
    ∀ l : List α, l ≠ [] → (∀ x ∈ l, x = a) → l.dedup = [a] := by
  intro l
  induction l with
  | nil => intro h; exact absurd rfl h
  | cons x xs ih =>
    intro _ hall
    have hx : x = a := hall x (List.mem_cons_self _ _)
    cases xs with
    | nil => rw [hx]; rfl
    | cons y ys =>
      have hy : y = a := hall y (List.mem_cons_of_mem _ (List.mem_cons_self _ _))
      have hmem : x ∈ y :: ys := by rw [hx, hy]; exact List.mem_cons_self _ _
      rw [List.dedup_cons_of_mem hmem]
      exact ih (List.cons_ne_nil _ _) (fun z hz => hall z (List.mem_cons_of_mem _ hz))

/-- GetLastD of a nonempty list equals its getLast. -/
theorem getLastD_eq_getLast {α : Type} (l : List α) (a : α) (h : l ≠ []) :
    l.getLastD a = l.getLast h := by
  cases l with
  | nil => exact absurd rfl h
  | cons x xs => exact List.getLastD_eq_getLast? _ _ ▸ (List.getLast?_eq_getLast _ h ▸ rfl)

/-- Aggregating a group whose rows all match its key reads off the candle
columns directly. -/
theorem aggTrades_spec (s : String) (b : Nat) (r : TradeRow) (rs : List TradeRow)
    (hall : ∀ t ∈ r :: rs, t.symbol = s ∧ minuteTrunc t.timestamp = b) :
    aggTrades s b (r :: rs)
      = some ⟨s, r.price,
          (rs.map (fun t => t.price)).foldl max r.price,
          (rs.map (fun t => t.price)).foldl min r.price,
          (rs.getLastD r).price,
          (rs.map (fun t => t.size)).foldl (· + ·) r.size,
          rs.length + 1, b⟩ := by
  unfold aggTrades
  have hf : (r :: rs).filter (fun t => decide (t.symbol = s ∧ minuteTrunc t.timestamp = b))
      = r :: rs :=
    List.filter_eq_self.mpr (fun t ht => by rw [decide_eq_true_eq]; exact hall t ht)
  rw [hf]

/-- C4: OHLCV correctness.  For every nonempty trades table of one symbol
whose rows fall in one minute bucket inside the sweep window, the trades
sweep appends exactly one candle whose open is the first row's price in table
order, close the last row's price, high the maximum price, low the minimum
price, volume the sum of sizes, and trade_count the number of rows. -/
theorem C4_ohlcv_correctness (now : Nat) (db : DB) (s : String) (b : Nat)
    (h1 : db.trades ≠ [])
    (h2 : ∀ t ∈ db.trades, t.symbol = s ∧ minuteTrunc t.timestamp = b)
    (h4 : ∀ t ∈ db.trades, now - 86400 ≤ t.timestamp) :
    ∃ c : CandleRow,
      (ci_generate_candles now db).candles = db.candles ++ [c]
      ∧ c.symbol = s ∧ c.timestamp = b
      ∧ c.open_p = (db.trades.head h1).price
      ∧ c.close = (db.trades.getLast h1).price
      ∧ c.high ∈ db.trades.map (fun t => t.price)
      ∧ (∀ p ∈ db.trades.map (fun t => t.price), p ≤ c.high)
      ∧ c.low ∈ db.trades.map (fun t => t.price)
      ∧ (∀ p ∈ db.trades.map (fun t => t.price), c.low ≤ p)
      ∧ c.volume = (db.trades.map (fun t => t.size)).sum
      ∧ c.trade_count = db.trades.length := by
  have hwin : tradesWindow now db = db.trades :=
    List.filter_eq_self.mpr (fun t ht => by rw [decide_eq_true_eq]; exact h4 t ht)
  have hkeys : tradesKeys now db = [(s, b)] := by
    unfold tradesKeys
    rw [hwin]
    refine dedup_all_eq (s, b) _ ?_ ?_
    · intro hmap
      exact h1 (List.map_eq_nil_iff.mp hmap)
    · intro x hx
      obtain ⟨t, ht, hxt⟩ := List.mem_map.mp hx
      rw [← hxt]
      obtain ⟨hs, hb⟩ := h2 t ht
      rw [hs, hb]
  obtain ⟨r, rs, hrw⟩ : ∃ r rs, db.trades = r :: rs := by
    cases hc : db.trades with
    | nil => exact absurd hc h1
    | cons r rs => exact ⟨r, rs, rfl⟩
  have hagg : aggTrades s b (tradesWindow now db)
      = some ⟨s, r.price,
          (rs.map (fun t => t.price)).foldl max r.price,
          (rs.map (fun t => t.price)).foldl min r.price,
          (rs.getLastD r).price,
          (rs.map (fun t => t.size)).foldl (· + ·) r.size,
          rs.length + 1, b⟩ := by
    rw [hwin, hrw]
    exact aggTrades_spec s b r rs (by rw [← hrw]; exact h2)
  have hlen : ¬ db.trades.length = 0 := by
    rw [hrw]; simp
  refine ⟨⟨s, r.price,
      (rs.map (fun t => t.price)).foldl max r.price,
      (rs.map (fun t => t.price)).foldl min r.price,
      (rs.getLastD r).price,
      (rs.map (fun t => t.size)).foldl (· + ·) r.size,
      rs.length + 1, b⟩, ?_, rfl, rfl, ?_, ?_, ?_, ?_, ?_, ?_, ?_, ?_⟩
  · unfold ci_generate_candles
    rw [if_neg hlen, hkeys]
    simp [List.filterMap_cons, hagg]
  · have hhead : db.trades.head h1 = r := by
      have hh : db.trades.head? = some r := by rw [hrw]; rfl
      rw [List.head?_eq_head h1] at hh
      exact Option.some.inj hh
    rw [hhead]
  · have hlast : db.trades.getLast h1 = rs.getLastD r := by
      rw [← getLastD_eq_getLast db.trades r h1, hrw]
      exact List.getLastD_cons r r rs
    rw [hlast]
  · rw [hrw, List.map_cons]
    exact foldl_max_mem r.price (rs.map (fun t => t.price))
  · intro p hp
    rw [hrw, List.map_cons] at hp
    exact le_foldl_max r.price (rs.map (fun t => t.price)) p hp
  · rw [hrw, List.map_cons]
    exact foldl_min_mem r.price (rs.map (fun t => t.price))
  · intro p hp
    rw [hrw, List.map_cons] at hp
    exact foldl_min_le r.price (rs.map (fun t => t.price)) p hp
  · rw [hrw, List.map_cons, List.sum_cons]
    exact foldl_add_eq r.size (rs.map (fun t => t.size))
  · rw [hrw]; rfl

/-- Concrete trades table holding the spec's four one-bucket trades for
symbol X: prices 10, 12, 9, 11 at seconds 0, 10, 20, 59 with sizes 1, 2, 3,
4. -/
def dbC4 : DB :=
  ⟨[⟨"X", 10, 1, "buy", 1, 0⟩, ⟨"X", 12, 2, "sell", 2, 10⟩,
    ⟨"X", 9, 3, "buy", 3, 20⟩, ⟨"X", 11, 4, "sell", 4, 59⟩], [], []⟩

/-- C4 witness: the OHLCV theorem applied to the spec's concrete trades
yields open 10, high 12, low 9, close 11, volume 10 and trade_count 4. -/
theorem C4_ohlcv_correctness_witness :
    ∃ c : CandleRow, (ci_generate_candles 60 dbC4).candles = [c]
      ∧ c.symbol = "X" ∧ c.timestamp = 0 ∧ c.open_p = 10 ∧ c.close = 11
      ∧ c.high = 12 ∧ c.low = 9 ∧ c.volume = 10 ∧ c.trade_count = 4 := by
  obtain ⟨c, happ, hs, ht, ho, hc, hhm, hhb, hlm, hlb, hv, hn⟩ :=
    C4_ohlcv_correctness 60 dbC4 "X" 0 (by decide) (by decide) (by decide)
  refine ⟨c, ?_, hs, ht, ?_, ?_, ?_, ?_, ?_, ?_⟩
  · simpa [dbC4] using happ
  · rw [ho]; decide
  · rw [hc]; decide
  · have h12 : (12 : ℚ) ≤ c.high := hhb 12 (by decide)
    have hcases : c.high = 10 ∨ c.high = 12 ∨ c.high = 9 ∨ c.high = 11 := by
      simpa [dbC4] using hhm
    rcases hcases with h | h | h | h
    · rw [h] at h12; norm_num at h12
    · exact h
    · rw [h] at h12; norm_num at h12
    · rw [h] at h12; norm_num at h12
  · have h9 : c.low ≤ (9 : ℚ) := hlb 9 (by decide)
    have hcases : c.low = 10 ∨ c.low = 12 ∨ c.low = 9 ∨ c.low = 11 := by
      simpa [dbC4] using hlm
    rcases hcases with h | h | h | h
    · rw [h] at h9; norm_num at h9
    · rw [h] at h9; norm_num at h9
    · exact h
    · rw [h] at h9; norm_num at h9
  · rw [hv]
    simp [dbC4]
    norm_num
  · rw [hn]; rfl

/-- Concrete trades table for the idempotence counterexample: one trade just
inside the 24h window. -/
def dbC1 : DB := ⟨[⟨"BTC-USD", 100, 1, "buy", 1, 99990⟩], [], []⟩

/-- C1 counterexample: the trades-based sweep of crypto_ingestion.py excludes
nothing, so running it a second time over the unchanged window appends the
same candle again — the candle row set changes (one row becomes two identical
rows), refuting idempotence for the trades-based sweep. -/
theorem C1_idempotence_counterexample :
    (ci_generate_candles 100000 (ci_generate_candles 100000 dbC1)).candles
      ≠ (ci_generate_candles 100000 dbC1).candles
  ∧ (ci_generate_candles 100000 dbC1).candles.length = 1
  ∧ (ci_generate_candles 100000 (ci_generate_candles 100000 dbC1)).candles.length = 2
  ∧ ¬ (ci_generate_candles 100000 (ci_generate_candles 100000 dbC1)).candles.Nodup := by
  decide

/-- The candle a ticker-sweep group produces is stamped with its bucket. -/
theorem aggTicker_timestamp {s : String} {b : Nat} {rows : List TickerRow} {c : CandleRow}
    (h : aggTicker s b rows = some c) : c.timestamp = b := by
  unfold aggTicker at h
  split at h
  · exact absurd h (by simp)
  · rw [Option.some.injEq] at h
    rw [← h]

/-- A ticker-sweep group containing a matching row aggregates to a candle. -/
theorem aggTicker_exists {s : String} {b : Nat} {r : TickerRow} {rows : List TickerRow}
    (hr : r ∈ rows) (hs : r.symbol = s) (hb : minuteTrunc r.timestamp = b) :
    ∃ c, aggTicker s b rows = some c := by
  unfold aggTicker
  split
  · rename_i heq
    have hnp := List.filter_eq_nil_iff.mp heq r hr
    rw [decide_eq_true_eq] at hnp
    exact absurd ⟨hs, hb⟩ hnp
  · exact ⟨_, rfl⟩

/-- Membership in the materialized-bucket exclusion list. -/
theorem mem_existingBuckets {now b : Nat} {db : DB} :
    b ∈ existingBuckets now db
      ↔ ∃ c ∈ db.candles, now - 7200 ≤ c.timestamp ∧ c.timestamp = b := by
  unfold existingBuckets
  constructor
  · intro h
    obtain ⟨c, hcf, hct⟩ := List.mem_map.mp h
    have hm := List.mem_filter.mp hcf
    exact ⟨c, hm.1, of_decide_eq_true hm.2, hct⟩
  · rintro ⟨c, hc, hw, ht⟩
    exact List.mem_map.mpr ⟨c, List.mem_filter.mpr ⟨hc, decide_eq_true hw⟩, ht⟩

/-- Minute truncation is monotone. -/
theorem minuteTrunc_mono {a c : Nat} (h : a ≤ c) : minuteTrunc a ≤ minuteTrunc c :=
  Nat.mul_le_mul_right 60 (Nat.div_le_div_right h)

/-- C1 amended: the ticker-based sweep of database.py IS idempotent whenever
the 2h window boundary is minute-aligned: the first sweep materializes every
eligible bucket, the exclusion subselect then filters every window row out,
and the second sweep over the unchanged window changes nothing.  (The
trades-based sweep is not idempotent; see the counterexample.) -/
theorem C1_idempotent_aggregation_amended (now : Nat) (db : DB)
    (h : minuteTrunc (now - 7200) = now - 7200) :
    db_generate_candles now (db_generate_candles now db) = db_generate_candles now db := by
  have hcand : (db_generate_candles now db).candles
      = db.candles ++ (tickerKeys now db).filterMap
          (fun k => aggTicker k.1 k.2 (tickerEligible now db)) := rfl
  have helig : tickerEligible now (db_generate_candles now db) = [] := by
    apply List.filter_eq_nil_iff.mpr
    intro r hr
    have hr0 : r ∈ db.ticker := hr
    rw [decide_eq_true_eq]
    intro hcond
    obtain ⟨hw, hnotmem⟩ := hcond
    apply hnotmem
    rw [mem_existingBuckets, hcand]
    by_cases hb : minuteTrunc r.timestamp ∈ existingBuckets now db
    · obtain ⟨c, hc, hcw, hct⟩ := mem_existingBuckets.mp hb
      exact ⟨c, List.mem_append_left _ hc, hcw, hct⟩
    · have helig0 : r ∈ tickerEligible now db :=
        List.mem_filter.mpr ⟨hr0, by rw [decide_eq_true_eq]; exact ⟨hw, hb⟩⟩
      have hkey : (r.symbol, minuteTrunc r.timestamp) ∈ tickerKeys now db :=
        List.mem_dedup.mpr (List.mem_map.mpr ⟨r, helig0, rfl⟩)
      obtain ⟨c, hcagg⟩ := aggTicker_exists helig0 rfl rfl
      have hcnew : c ∈ (tickerKeys now db).filterMap
          (fun k => aggTicker k.1 k.2 (tickerEligible now db)) :=
        List.mem_filterMap.mpr ⟨(r.symbol, minuteTrunc r.timestamp), hkey, hcagg⟩
      have hct : c.timestamp = minuteTrunc r.timestamp := aggTicker_timestamp hcagg
      have hbw : now - 7200 ≤ minuteTrunc r.timestamp := by
        calc now - 7200 = minuteTrunc (now - 7200) := h.symm
          _ ≤ minuteTrunc r.timestamp := minuteTrunc_mono hw
      exact ⟨c, List.mem_append_right _ hcnew, by rw [hct]; exact hbw, hct⟩
  have hkeys2 : tickerKeys now (db_generate_candles now db) = [] := by
    unfold tickerKeys
    rw [helig]
    rfl
  have hstep : db_generate_candles now (db_generate_candles now db)
      = { db_generate_candles now db with
          candles := (db_generate_candles now db).candles
            ++ (tickerKeys now (db_generate_candles now db)).filterMap
                (fun k => aggTicker k.1 k.2 (tickerEligible now (db_generate_candles now db))) } := rfl
  rw [hstep, hkeys2]
  simp

/-- Concrete ticker table for the idempotence witness: two symbols with rows
inside the minute-aligned 2h window, no candles yet. -/
def dbC1W : DB :=
  ⟨[], [⟨"BTC-USD", 99, 101, 100, 2, 5, 3700⟩, ⟨"ETH-USD", 9, 11, 10, 2, 3, 3725⟩], []⟩

/-- C1 witness: the amended idempotence theorem at a concrete minute-aligned
window. -/
theorem C1_idempotent_aggregation_witness :
    db_generate_candles 10800 (db_generate_candles 10800 dbC1W)
      = db_generate_candles 10800 dbC1W :=
  C1_idempotent_aggregation_amended 10800 dbC1W (by decide)

/-- C8: In the ticker-derived sweep the already-materialized-bucket exclusion
is keyed on the bucket timestamp alone, not on (symbol, timestamp): whenever
some candle row of any symbol exists for a minute inside the 2h window, the
sweep adds no candle at that minute for any symbol — every candle of the
swept database carrying that timestamp was already present before the
sweep. -/
theorem C8_bucket_exclusion_symbol_blind (now M : Nat) (db : DB)
    (h : ∃ c ∈ db.candles, now - 7200 ≤ c.timestamp ∧ c.timestamp = M) :
    ∀ c ∈ (db_generate_candles now db).candles, c.timestamp = M → c ∈ db.candles := by
  intro c hc hct
  have hcand : (db_generate_candles now db).candles
      = db.candles ++ (tickerKeys now db).filterMap
          (fun k => aggTicker k.1 k.2 (tickerEligible now db)) := rfl
  rw [hcand] at hc
  rcases List.mem_append.mp hc with hin | hnew
  · exact hin
  · exfalso
    obtain ⟨k, hk, hagg⟩ := List.mem_filterMap.mp hnew
    have hts : c.timestamp = k.2 := aggTicker_timestamp hagg
    obtain ⟨r, hrelig, hkey⟩ := List.mem_map.mp (List.mem_dedup.mp hk)
    have hcond := (List.mem_filter.mp hrelig).2
    rw [decide_eq_true_eq] at hcond
    obtain ⟨hw, hnot⟩ := hcond
    apply hnot
    rw [mem_existingBuckets]
    have hkM : minuteTrunc r.timestamp = M := by
      have h2 : k.2 = minuteTrunc r.timestamp := (congrArg Prod.snd hkey).symm
      rw [← h2, ← hts, hct]
    obtain ⟨c0, hc0, hc0w, hc0t⟩ := h
    exact ⟨c0, hc0, hc0w, by rw [hc0t, hkM]⟩

/-- Concrete database for the C8 witness: a BTC-USD candle already exists at
minute 60 and an ETH-USD ticker row falls in that same minute. -/
def dbC8 : DB :=
  ⟨[], [⟨"ETH-USD", 10, 12, 11, 2, 7, 70⟩],
    [⟨"BTC-USD", 50000, 50100, 49900, 50050, 3, 5, 60⟩]⟩

/-- C8 witness: with a BTC-USD candle materialized at minute 60, the minute-60
candle found in the swept database was already present before the sweep, and
the sweep adds nothing at all — the pending ETH-USD rows of that minute are
skipped because the exclusion ignores the symbol. -/
theorem C8_bucket_exclusion_symbol_blind_witness :
    (⟨"BTC-USD", 50000, 50100, 49900, 50050, 3, 5, 60⟩ : CandleRow) ∈ dbC8.candles
  ∧ (db_generate_candles 7260 dbC8).candles.length = 1 :=
  ⟨C8_bucket_exclusion_symbol_blind 7260 60 dbC8 (by decide)
      ⟨"BTC-USD", 50000, 50100, 49900, 50050, 3, 5, 60⟩ (by decide) rfl,
    by decide⟩

end Crypto
